import Mathlib

/-!
Verification development for the generation orchestration engine
(`fms_sdg/generate_data.py`).

The Python function `generate_data` groups tasks by data builder and, for
each group, runs a resumable iteration loop: it polls incomplete tasks for
their combined seed+generated example pool, invokes the builder on that
pool, partitions the accepted examples back onto the active tasks, persists
the increments, tracks completion, and accumulates a discard count.

The development below is a shallow embedding of that function.  External
collaborators (the `SdgTask` persistence contract, the builder callable)
are not part of the repository source; their interfaces are modelled from
the specification where noted, and builder behaviour is kept as an
arbitrary function parameter so theorems quantify over all builders.
-/

namespace FmsSdg

/-! ## Path model

`generate_data` computes the run name with `os.path.split`, `pathlib.Path.stem`
and joins paths with `os.path.join`.  These are embedded below over POSIX
path strings (lists of characters). -/

/-- Split a character list at every occurrence of the separator `c`,
mirroring how POSIX path components are obtained from a path string. -/
def splitOnChar (c : Char) : List Char → List (List Char)
  | [] => [[]]
  | x :: xs =>
    let r := splitOnChar c xs
    if x = c then [] :: r
    else
      match r with
      | [] => [[x]]
      | y :: ys => (x :: y) :: ys

/-- Index of the last occurrence of `c` in `cs` (Python `str.rfind`),
`none` when absent. -/
def rfindChar (c : Char) : List Char → Option Nat
  | [] => none
  | x :: xs =>
    match rfindChar c xs with
    | some j => some (j + 1)
    | none => if x = c then some 0 else none

/-- The final path component of a POSIX path, as `pathlib.PurePath.name`
computes it: empty components and lone dots are dropped, the last remaining
component is the name (empty when none remains). -/
def pathNameChars (p : List Char) : List Char :=
  (((splitOnChar '/' p).filter (fun s => !s.isEmpty && s != ['.']))).getLast?.getD []

/-- `pathlib.PurePath.stem` on a path name: the name with its final suffix
removed, where a suffix starts at the last dot provided that dot is neither
the first character nor the last. -/
def stemChars (n : List Char) : List Char :=
  match rfindChar '.' n with
  | some i => if 0 < i ∧ i < n.length - 1 then n.take i else n
  | none => n

/-- The head part of Python `os.path.split`: everything up to and including
the last separator, with trailing separators stripped unless the head is
entirely separators. -/
def osSplitHeadChars (p : List Char) : List Char :=
  match rfindChar '/' p with
  | none => []
  | some i =>
    let head := p.take (i + 1)
    if head.all (fun x => x == '/') then head
    else (head.reverse.dropWhile (fun x => x == '/')).reverse

/-- `pathlib.Path(p).name` over strings. -/
def pathName (p : String) : String :=
  String.mk (pathNameChars p.toList)

/-- `pathlib.Path(p).stem` over strings. -/
def pathStem (p : String) : String :=
  String.mk (stemChars (pathNameChars p.toList))

/-- Python `os.path.join(a, b)` for POSIX paths: `b` wins when absolute,
otherwise it is appended to `a` with a separator inserted unless `a` is
empty or already ends in one. -/
def osPathJoin (a b : String) : String :=
  if b.toList.head? = some '/' then b
  else if a.toList = [] ∨ a.toList.getLast? = some '/' then a ++ b
  else a ++ "/" ++ b

/-- The run name computed at the top of `generate_data`:
`Path(os.path.split(data_path)[0]).stem` when `data_path` is a file,
`Path(data_path).stem` otherwise.  Whether the path names a file is an
oracle argument standing for `os.path.isfile`. -/
def runName (data_path : String) (is_file : Bool) : String :=
  if is_file then String.mk (stemChars (pathNameChars (osSplitHeadChars data_path.toList)))
  else String.mk (stemChars (pathNameChars data_path.toList))

/-! ## Data model -/

/-- An example record.  The orchestrator only inspects the owning task's
identity (`fid.task_name`); the rest of the record is opaque payload. -/
structure Example where
  task_name : String
  content : String
deriving DecidableEq, Repr

/-- One `SdgTask` object, as seen by the orchestrator.  `id` stands for
Python object identity (list membership such as `task not in completed_tasks`
compares object identity).  `persisted` models the content of the task's
output file at `task.output_path` (`none` when the file does not exist).
Modelled from the spec: the `SdgTask` class itself is not part of this
source file; its interface (`seed_data`, `machine_data`, `load_data`,
`save_data` with append semantics, `clear_data`, `is_complete`) is taken
from the specification's task-object contract. -/
structure Task where
  id : Nat
  name : String
  seed_data : List Example
  machine_data : List Example
  persisted : Option (List Example)
deriving DecidableEq, Repr

/-- The resume step for one task (the body of the per-task loop before the
iteration loop): a restart clears prior persisted state, then if persisted
output exists it is loaded and assigned to `task.machine_data`.
Modelled from the spec for the externals: `clear_data` discards persisted
state and `load_data` returns the persisted examples. -/
def resumeTask (restart_generation : Bool) (t : Task) : Task :=
  let t1 := if restart_generation then { t with persisted := none } else t
  match t1.persisted with
  | some d => { t1 with machine_data := d }
  | none => t1

/-- The pool built each iteration:
`[e for task in tasks for e in (task.seed_data + task.machine_data)]`. -/
def dataPool (tasks : List Task) : List Example :=
  tasks.flatMap (fun t => t.seed_data ++ t.machine_data)

/-- A task's share of one invocation's accepted examples:
`[fid for fid in filtered_data if fid.task_name == task.name]`. -/
def shareOf (filtered_data : List Example) (nm : String) : List Example :=
  filtered_data.filter (fun fid => fid.task_name == nm)

/-- The body of the per-task loop inside one iteration: extend
`machine_data` with the task's share, evaluate `is_complete` on the
extended task, then `save_data(new_data)` (append semantics on the
persisted file, modelled from the spec).  Returns the updated task, the
completion flag, and the save event `(task.name, new_data)`. -/
def processTask (is_complete : Task → Bool) (filtered_data : List Example) (t : Task) :
    Task × Bool × (String × List Example) :=
  let new_data := shareOf filtered_data t.name
  let t1 := { t with machine_data := t.machine_data ++ new_data }
  let done := is_complete t1
  let t2 := { t1 with persisted := some (t1.persisted.getD [] ++ new_data) }
  (t2, done, (t.name, new_data))

/-- The state of one builder group's run.  `pools` logs, per builder
invocation, the active task list at invocation time together with the pool
passed; `saves` logs every `save_data` call; `discards` logs the
per-iteration discard counts; `invocations` counts builder calls. -/
structure GroupState where
  tasks : List Task
  completed : List Task
  request_idx : Nat
  group_discarded : Nat
  discards : List Nat
  pools : List (List Task × List Example)
  saves : List (String × List Example)
  invocations : Nat
  error : Option String
deriving DecidableEq, Repr

/-- Object identities of the completed tasks. -/
def completedIds (st : GroupState) : List Nat :=
  st.completed.map (fun t => t.id)

/-- Object identities of the active tasks. -/
def activeIds (st : GroupState) : List Nat :=
  st.tasks.map (fun t => t.id)

/-- One iteration of the while loop: increment `request_idx`, build the
pool over the active tasks, invoke the builder, run the per-task loop
(extend, completion check, save), append the discard count, and re-filter
the active list against the completed list (object-identity membership). -/
def iterationStep (b : Nat → List Example → List Example × Nat)
    (is_complete : Task → Bool) (st : GroupState) : GroupState :=
  let request_idx := st.request_idx + 1
  let data_pool := dataPool st.tasks
  let res := b request_idx data_pool
  let filtered_data := res.1
  let discarded := res.2
  let results := st.tasks.map (processTask is_complete filtered_data)
  let completed' := st.completed ++ (results.filter (fun r => r.2.1)).map (fun r => r.1)
  let tasks' := (results.map (fun r => r.1)).filter
      (fun t => !((completed'.map (fun c => c.id)).contains t.id))
  { tasks := tasks'
    completed := completed'
    request_idx := request_idx
    group_discarded := st.group_discarded + discarded
    discards := st.discards ++ [discarded]
    pools := st.pools ++ [(st.tasks, data_pool)]
    saves := st.saves ++ results.map (fun r => r.2.2)
    invocations := st.invocations + 1
    error := st.error }

/-- The while loop `while tasks and request_idx <= max_gen_requests`,
written with explicit fuel so that it computes by structural recursion.
Each iteration increments `request_idx`, so `max_gen_requests + 1 -
request_idx` iterations always suffice. -/
def runLoopFuel (max_gen_requests : Nat) (b : Nat → List Example → List Example × Nat)
    (is_complete : Task → Bool) : Nat → GroupState → GroupState
  | 0, st => st
  | fuel + 1, st =>
    if st.tasks ≠ [] ∧ st.request_idx ≤ max_gen_requests then
      runLoopFuel max_gen_requests b is_complete fuel (iterationStep b is_complete st)
    else st

/-- The while loop, started with sufficient fuel. -/
def runLoop (max_gen_requests : Nat) (b : Nat → List Example → List Example × Nat)
    (is_complete : Task → Bool) (st : GroupState) : GroupState :=
  runLoopFuel max_gen_requests b is_complete (max_gen_requests + 1 - st.request_idx) st

/-- The initial loop state for a group, after resume and pre-filter. -/
def initGroupState (active completed : List Task) : GroupState :=
  { tasks := active
    completed := completed
    request_idx := 0
    group_discarded := 0
    discards := []
    pools := []
    saves := []
    invocations := 0
    error := none }

/-- One builder group's run: the seed count check (`if not seeds: raise
SystemExit("Nothing to generate. Exiting.")`), then the resume loop, the
pre-filter of already-complete tasks (`completed_tasks` by `is_complete`,
`tasks` re-filtered by object-identity membership), then the while loop. -/
def runGroup (max_gen_requests : Nat) (b : Nat → List Example → List Example × Nat)
    (is_complete : Task → Bool) (restart_generation : Bool)
    (tasks0 : List Task) : GroupState :=
  let seeds := (tasks0.flatMap (fun t => t.seed_data)).length
  if seeds = 0 then
    { tasks := []
      completed := []
      request_idx := 0
      group_discarded := 0
      discards := []
      pools := []
      saves := []
      invocations := 0
      error := some "Nothing to generate. Exiting." }
  else
    let tasks1 := tasks0.map (resumeTask restart_generation)
    let completed0 := tasks1.filter (fun t => is_complete t)
    let active0 := tasks1.filter
        (fun t => !((completed0.map (fun c => c.id)).contains t.id))
    runLoop max_gen_requests b is_complete (initGroupState active0 completed0)

/-- One builder group's inputs: the builder callable (a black box to the
orchestrator), the task completion policy (a pure function of task state,
per the spec), and the constructed task objects. -/
structure GroupInput where
  builder : Nat → List Example → List Example × Nat
  is_complete : Task → Bool
  tasks : List Task

/-- The loop over builder groups.  A `SystemExit` raised inside one group
aborts the whole run, so processing stops at the first group whose state
carries an error.  Returns the processed group states, the accumulated
`total_discarded`, and the propagated error if any. -/
def processGroups (max_gen_requests : Nat) (restart_generation : Bool) :
    List GroupInput → List GroupState × Nat × Option String
  | [] => ([], 0, none)
  | g :: gs =>
    let r := runGroup max_gen_requests g.builder g.is_complete restart_generation g.tasks
    match r.error with
    | some e => ([r], r.group_discarded, some e)
    | none =>
      let rest := processGroups max_gen_requests restart_generation gs
      (r :: rest.1, r.group_discarded + rest.2.1, rest.2.2)

/-- The result of a whole run: the output directory handed to builders and
tasks, the per-group states, the run-level discard total, the discard
totals reported at the very end of the run, and the fatal error if any. -/
structure RunResult where
  output_dir : String
  group_results : List GroupState
  total_discarded : Nat
  reports : List Nat
  error : Option String

/-- The whole `generate_data` function: compute the run name and output
directory, check that the data path is non-empty and exists (oracle
arguments stand for the file system), run the builder groups, and report
the discard total once at the end of the run, only when it is non-zero and
no group aborted the run.  Builder-name resolution and task-spec reading
are external collaborators and enter only through the already-grouped
`groups` argument. -/
def generate_data (max_gen_requests : Nat) (data_path : String) (output_dir : String)
    (data_path_exists data_path_is_file : Bool) (restart_generation : Bool)
    (groups : List GroupInput) : RunResult :=
  let name := runName data_path data_path_is_file
  let out := osPathJoin output_dir name
  if data_path ≠ "" ∧ data_path_exists = true then
    let pr := processGroups max_gen_requests restart_generation groups
    { output_dir := out
      group_results := pr.1
      total_discarded := pr.2.1
      reports :=
        match pr.2.2 with
        | some _ => []
        | none => if pr.2.1 ≠ 0 then [pr.2.1] else []
      error := pr.2.2 }
  else
    { output_dir := out
      group_results := []
      total_discarded := 0
      reports := []
      error := some ("Error: data path (" ++ data_path ++ ") does not exist.") }

/-- Total number of builder invocations over a whole run. -/
def totalInvocations (r : RunResult) : Nat :=
  (r.group_results.map (fun g => g.invocations)).sum

/-- Modelled from the spec: the reporting discipline the specification
claims for discards — one total per builder group, surfaced at the end of
that group's processing, equal to that group's per-iteration discard sum.
Used to compare the claimed behaviour against the code's single run-level
report. -/
def specPerGroupReports (rs : List GroupState) : List Nat :=
  rs.map (fun g => g.discards.sum)

/-! ## Concrete fixtures for witnesses and counterexamples -/

/-- A machine-generated example owned by task `t1`. -/
def cE1 : Example := { task_name := "t1", content := "x" }

/-- A seed example owned by task `t1`. -/
def cS1 : Example := { task_name := "t1", content := "seed one" }

/-- A seed example owned by task `t2`. -/
def cS2 : Example := { task_name := "t2", content := "seed two" }

/-- An example tagged for a task name that matches no task. -/
def cEz : Example := { task_name := "zz", content := "stray" }

/-- A fresh task `t1` with one seed example and no persisted output. -/
def cT1 : Task :=
  { id := 0, name := "t1", seed_data := [cS1], machine_data := [], persisted := none }

/-- Task `t1` with persisted output `[cE1]` on disk. -/
def cT1r : Task :=
  { id := 0, name := "t1", seed_data := [cS1], machine_data := [], persisted := some [cE1] }

/-- Task `t1` with one machine example already in memory. -/
def cT1x : Task :=
  { id := 0, name := "t1", seed_data := [cS1], machine_data := [cE1], persisted := none }

/-- A fresh task `t2` with one seed example. -/
def cT2 : Task :=
  { id := 1, name := "t2", seed_data := [cS2], machine_data := [], persisted := none }

/-- A task with no seed examples at all. -/
def cT0 : Task :=
  { id := 0, name := "t0", seed_data := [], machine_data := [], persisted := none }

/-- A builder that accepts nothing and discards nothing. -/
def cBNil : Nat → List Example → List Example × Nat := fun _ _ => ([], 0)

/-- A builder that accepts nothing and discards 3 examples per call. -/
def cB3 : Nat → List Example → List Example × Nat := fun _ _ => ([], 3)

/-- A builder that accepts nothing and discards 5 examples per call. -/
def cB5 : Nat → List Example → List Example × Nat := fun _ _ => ([], 5)

/-- A builder whose per-iteration discard counts are 3, 0, 5, 0, 0, ... -/
def cB305 : Nat → List Example → List Example × Nat :=
  fun i _ => ([], if i = 1 then 3 else if i = 3 then 5 else 0)

/-- A builder that always returns the single accepted example `cE1`. -/
def cBDup : Nat → List Example → List Example × Nat := fun _ _ => ([cE1], 0)

/-- A builder that returns one accepted example tagged for an unknown task. -/
def cBStray : Nat → List Example → List Example × Nat := fun _ _ => ([cEz], 0)

/-- A completion policy under which no task ever completes. -/
def cIcFalse : Task → Bool := fun _ => false

/-- A completion policy: complete once two machine examples accumulated. -/
def cIc2 : Task → Bool := fun t => decide (2 ≤ t.machine_data.length)

/-- Builder group discarding 3 per iteration, one task, never completing. -/
def cGa : GroupInput := { builder := cB3, is_complete := cIcFalse, tasks := [cT1] }

/-- Builder group discarding 5 per iteration, one task, never completing. -/
def cGb : GroupInput := { builder := cB5, is_complete := cIcFalse, tasks := [cT2] }

/-- Builder group with per-iteration discard counts 3, 0, 5. -/
def cG305 : GroupInput := { builder := cB305, is_complete := cIcFalse, tasks := [cT1] }

/-- A two-task loop state at the start of the iteration loop. -/
def cSt2 : GroupState := initGroupState [cT1, cT2] []

/-- A one-task loop state whose task is one example away from completion. -/
def cSt4 : GroupState := initGroupState [cT1x] []

/-! ## Loop invariant lemmas -/

/-- Each iteration appends exactly the record of the current active task
list and its pool to the pool log. -/
lemma iterationStep_pools (b : Nat → List Example → List Example × Nat)
    (ic : Task → Bool) (st : GroupState) :
    (iterationStep b ic st).pools = st.pools ++ [(st.tasks, dataPool st.tasks)] := rfl

/-- The iteration loop never changes the error field. -/
lemma runLoopFuel_error (m : Nat) (b : Nat → List Example → List Example × Nat)
    (ic : Task → Bool) :
    ∀ (fuel : Nat) (st : GroupState), (runLoopFuel m b ic fuel st).error = st.error := by
  intro fuel
  induction fuel with
  | zero => intro st; rfl
  | succ n ih =>
    intro st
    simp only [runLoopFuel]
    split
    · exact ih (iterationStep b ic st)
    · rfl

/-- Every pool record produced by the loop pairs an active task list with
exactly that list's seed+machine pool. -/
lemma runLoopFuel_pools_inv (m : Nat) (b : Nat → List Example → List Example × Nat)
    (ic : Task → Bool) :
    ∀ (fuel : Nat) (st : GroupState),
      (∀ rec ∈ st.pools, rec.2 = dataPool rec.1) →
      ∀ rec ∈ (runLoopFuel m b ic fuel st).pools, rec.2 = dataPool rec.1 := by
  intro fuel
  induction fuel with
  | zero => intro st h; exact h
  | succ n ih =>
    intro st h
    simp only [runLoopFuel]
    split
    · apply ih
      intro rec hrec
      rw [iterationStep_pools] at hrec
      rcases List.mem_append.mp hrec with h1 | h2
      · exact h rec h1
      · rw [List.mem_singleton.mp h2]
    · exact h

/-- Filtering the active list against an empty completed list keeps every
task. -/
lemma filter_not_contains_nil (l : List Task) :
    List.filter (fun t => !((List.map (fun c => c.id) ([] : List Task)).contains t.id)) l = l :=
  List.filter_eq_self.mpr (fun _ _ => rfl)

/-- Unfolding lemma: the completed list after one iteration. -/
lemma iterationStep_completed (b : Nat → List Example → List Example × Nat)
    (ic : Task → Bool) (st : GroupState) :
    (iterationStep b ic st).completed
      = st.completed
        ++ ((st.tasks.map (processTask ic (b (st.request_idx + 1) (dataPool st.tasks)).1)).filter
              (fun r => r.2.1)).map (fun r => r.1) := rfl

/-- Unfolding lemma: the active list after one iteration is the updated
tasks filtered against the new completed list by object identity. -/
lemma iterationStep_tasks (b : Nat → List Example → List Example × Nat)
    (ic : Task → Bool) (st : GroupState) :
    (iterationStep b ic st).tasks
      = ((st.tasks.map (processTask ic (b (st.request_idx + 1) (dataPool st.tasks)).1)).map
            (fun r => r.1)).filter
          (fun t => !(((iterationStep b ic st).completed.map (fun c => c.id)).contains t.id)) := rfl

/-- Unfolding lemma: the save log after one iteration. -/
lemma iterationStep_saves (b : Nat → List Example → List Example × Nat)
    (ic : Task → Bool) (st : GroupState) :
    (iterationStep b ic st).saves
      = st.saves
        ++ (st.tasks.map (processTask ic (b (st.request_idx + 1) (dataPool st.tasks)).1)).map
            (fun r => r.2.2) := rfl

/-- Unfolding lemma: the updated task produced by the per-task loop body. -/
lemma processTask_fst (ic : Task → Bool) (F : List Example) (t : Task) :
    (processTask ic F t).1
      = { t with
            machine_data := t.machine_data ++ shareOf F t.name
            persisted := some (t.persisted.getD [] ++ shareOf F t.name) } := rfl

/-- Unfolding lemma: the completion flag produced by the per-task loop
body is the policy evaluated on the extended task. -/
lemma processTask_flag (ic : Task → Bool) (F : List Example) (t : Task) :
    (processTask ic F t).2.1
      = ic { t with machine_data := t.machine_data ++ shareOf F t.name } := rfl

/-- Unfolding lemma: the save event produced by the per-task loop body. -/
lemma processTask_save (ic : Task → Bool) (F : List Example) (t : Task) :
    (processTask ic F t).2.2 = (t.name, shareOf F t.name) := rfl

/-- An example's membership in a task's share forces a name match. -/
lemma shareOf_name_eq {F : List Example} {nm : String} {e : Example}
    (h : e ∈ shareOf F nm) : e.task_name = nm := by
  have := (List.mem_filter.mp h).2
  simpa using this

/-- One iteration never removes a task from the completed list. -/
lemma step_completed_mono (b : Nat → List Example → List Example × Nat)
    (ic : Task → Bool) (st : GroupState) (i : Nat)
    (h : i ∈ completedIds st) : i ∈ completedIds (iterationStep b ic st) := by
  unfold completedIds at h ⊢
  rw [iterationStep_completed, List.map_append]
  exact List.mem_append_left _ h

/-- After one iteration, no active task's identity is in the completed
list: the re-filter at the end of the loop body removes every task whose
object identity occurs among the completed tasks. -/
lemma step_active_excludes (b : Nat → List Example → List Example × Nat)
    (ic : Task → Bool) (st : GroupState) :
    ∀ u ∈ (iterationStep b ic st).tasks, u.id ∉ completedIds (iterationStep b ic st) := by
  intro u hu hmem
  rw [iterationStep_tasks] at hu
  have hpred := (List.mem_filter.mp hu).2
  have hcont : (((iterationStep b ic st).completed.map (fun c => c.id)).contains u.id) = false := by
    cases hcase : (((iterationStep b ic st).completed.map (fun c => c.id)).contains u.id)
    · rfl
    · rw [hcase] at hpred; exact absurd hpred (by simp)
  have : u.id ∈ (iterationStep b ic st).completed.map (fun c => c.id) := hmem
  rw [← List.elem_iff] at this
  exact absurd this (by rw [show ((iterationStep b ic st).completed.map (fun c => c.id)).elem u.id = (((iterationStep b ic st).completed.map (fun c => c.id)).contains u.id) from rfl, hcont]; simp)

/-- Once an identity is in the completed list and out of the active list,
the rest of the loop keeps it completed, keeps it out of the active list,
and every pool record added later draws on a task list excluding it. -/
lemma runLoopFuel_completed_stay (m : Nat) (b : Nat → List Example → List Example × Nat)
    (ic : Task → Bool) :
    ∀ (fuel : Nat) (st : GroupState) (i : Nat),
      i ∈ completedIds st → i ∉ activeIds st →
      i ∈ completedIds (runLoopFuel m b ic fuel st)
      ∧ i ∉ activeIds (runLoopFuel m b ic fuel st)
      ∧ ∀ rec ∈ (runLoopFuel m b ic fuel st).pools,
          rec ∈ st.pools ∨ i ∉ rec.1.map (fun u => u.id) := by
  intro fuel
  induction fuel with
  | zero =>
    intro st i hc ha
    exact ⟨hc, ha, fun rec hrec => Or.inl hrec⟩
  | succ n ih =>
    intro st i hc ha
    simp only [runLoopFuel]
    split
    · have hc' : i ∈ completedIds (iterationStep b ic st) := step_completed_mono b ic st i hc
      have ha' : i ∉ activeIds (iterationStep b ic st) := by
        intro hmem
        unfold activeIds at hmem
        rcases List.mem_map.mp hmem with ⟨u, hu, hui⟩
        exact step_active_excludes b ic st u hu (hui ▸ hc')
      obtain ⟨k1, k2, k3⟩ := ih (iterationStep b ic st) i hc' ha'
      refine ⟨k1, k2, fun rec hrec => ?_⟩
      rcases k3 rec hrec with h | h
      · rw [iterationStep_pools] at h
        rcases List.mem_append.mp h with h1 | h2
        · exact Or.inl h1
        · right
          rw [List.mem_singleton.mp h2]
          exact ha
      · exact Or.inr h
    · exact ⟨hc, ha, fun rec hrec => Or.inl hrec⟩

/-- With a never-satisfied completion policy, one iteration keeps the
completed list empty, preserves the number of active tasks, and advances
the iteration counter and the invocation count by one. -/
lemma iterationStep_never_complete (b : Nat → List Example → List Example × Nat)
    (ic : Task → Bool) (hic : ∀ t, ic t = false) (st : GroupState)
    (hc : st.completed = []) :
    (iterationStep b ic st).completed = []
    ∧ (iterationStep b ic st).tasks.length = st.tasks.length
    ∧ (iterationStep b ic st).request_idx = st.request_idx + 1
    ∧ (iterationStep b ic st).invocations = st.invocations + 1 := by
  have hfilter : ∀ (F : List Example),
      (st.tasks.map (processTask ic F)).filter (fun r => r.2.1) = [] := by
    intro F
    apply List.filter_eq_nil_iff.mpr
    intro r hr
    rcases List.mem_map.mp hr with ⟨t, _, rfl⟩
    simp [processTask, hic]
  refine ⟨?_, ?_, rfl, rfl⟩
  · show st.completed ++ _ = []
    rw [hc, hfilter]
    rfl
  · show (List.filter _ _).length = _
    rw [show st.completed ++ ((st.tasks.map
          (processTask ic (b (st.request_idx + 1) (dataPool st.tasks)).1)).filter
            (fun r => r.2.1)).map (fun r => r.1) = [] from by rw [hc, hfilter]; rfl]
    rw [filter_not_contains_nil]
    simp

/-- With a never-satisfied completion policy and a non-empty active set,
the loop runs its fuel out: each unit of fuel is one builder invocation. -/
lemma runLoopFuel_count_never_complete (m : Nat)
    (b : Nat → List Example → List Example × Nat) (ic : Task → Bool)
    (hic : ∀ t, ic t = false) :
    ∀ (fuel : Nat) (st : GroupState), st.completed = [] → st.tasks ≠ [] →
      st.request_idx + fuel = m + 1 →
      (runLoopFuel m b ic fuel st).invocations = st.invocations + fuel := by
  intro fuel
  induction fuel with
  | zero => intro st _ _ _; rfl
  | succ n ih =>
    intro st hc hne hr
    have hle : st.request_idx ≤ m := by omega
    simp only [runLoopFuel]
    rw [if_pos ⟨hne, hle⟩]
    obtain ⟨h1, h2, h3, h4⟩ := iterationStep_never_complete b ic hic st hc
    have hne' : (iterationStep b ic st).tasks ≠ [] := by
      intro h0
      apply hne
      rw [h0] at h2
      exact List.length_eq_zero.mp h2.symm
    rw [ih (iterationStep b ic st) h1 hne' (by omega), h4]
    omega

/-- A character absent from a list is never found by `rfindChar`. -/
lemma rfindChar_eq_none {c : Char} : ∀ {cs : List Char}, c ∉ cs → rfindChar c cs = none := by
  intro cs
  induction cs with
  | nil => intro _; rfl
  | cons x xs ih =>
    intro h
    have hx : x ≠ c := fun hh => h (by rw [hh]; exact List.mem_cons_self c xs)
    simp only [rfindChar]
    rw [ih (fun hm => h (List.mem_cons_of_mem x hm))]
    simp [hx]

/-- The last separator of `dc ++ '/' :: fc` sits right after `dc` when
`fc` is separator-free. -/
lemma rfindChar_append_cons {fc : List Char} (hf : '/' ∉ fc) :
    ∀ dc : List Char, rfindChar '/' (dc ++ '/' :: fc) = some dc.length := by
  intro dc
  induction dc with
  | nil =>
    simp only [List.nil_append, rfindChar]
    rw [rfindChar_eq_none hf]
    simp
  | cons x xs ih =>
    simp only [List.cons_append, rfindChar, List.append_eq]
    rw [ih]
    simp

/-- For a well-formed file path `dc ++ '/' :: fc` — non-empty parent part
not ending in a separator, separator-free final component — the head part
of `os.path.split` is exactly the parent part. -/
lemma osSplitHeadChars_parent {dc fc : List Char} (hd : dc ≠ [])
    (hlast : dc.getLast? ≠ some '/') (hf : '/' ∉ fc) :
    osSplitHeadChars (dc ++ '/' :: fc) = dc := by
  obtain ⟨y, ys, hys⟩ : ∃ y ys, dc.reverse = y :: ys := by
    cases hr : dc.reverse with
    | nil => exact absurd (List.reverse_eq_nil_iff.mp hr) hd
    | cons y ys => exact ⟨y, ys, rfl⟩
  have hy : dc.getLast? = some y := by rw [← List.head?_reverse, hys]; rfl
  have hyne : y ≠ '/' := fun hh => hlast (by rw [hy, hh])
  unfold osSplitHeadChars
  split
  · rename_i heq
    rw [rfindChar_append_cons hf dc] at heq
    exact absurd heq (by simp)
  · rename_i i heq
    rw [rfindChar_append_cons hf dc] at heq
    have hi : i = dc.length := (Option.some.inj heq).symm
    subst hi
    have htake : (dc ++ '/' :: fc).take (dc.length + 1) = dc ++ ['/'] := by
      rw [List.take_append 1]
      rfl
    rw [htake]
    have hall : (dc ++ ['/']).all (fun x => x == '/') = false := by
      cases hcase : (dc ++ ['/']).all (fun x => x == '/')
      · rfl
      · exfalso
        have hmem : y ∈ dc ++ ['/'] := List.mem_append_left _ (by
          have : y ∈ dc.reverse := by rw [hys]; exact List.mem_cons_self y ys
          exact List.mem_reverse.mp this)
        have := List.all_eq_true.mp hcase y hmem
        simp at this
        exact hyne this
    simp only [hall, Bool.false_eq_true, if_false]
    rw [show (dc ++ ['/']).reverse = '/' :: dc.reverse from by simp]
    rw [List.dropWhile_cons]
    simp only [show (('/' : Char) == '/') = true from rfl, if_true]
    rw [hys, List.dropWhile_cons]
    rw [if_neg (by simp [hyne])]
    rw [← hys, List.reverse_reverse]

/-- Both branches of the data-path check hand the same output directory
to the record: the configured base joined with the computed run name. -/
lemma generate_data_output_dir (m : Nat) (dp od : String) (dpe dpf restart : Bool)
    (groups : List GroupInput) :
    (generate_data m dp od dpe dpf restart groups).output_dir
      = osPathJoin od (runName dp dpf) := by
  simp only [generate_data]
  split <;> rfl

/-- The loop keeps the group discard accumulator equal to the sum of the
logged per-iteration discard counts. -/
lemma runLoopFuel_discards_sum (m : Nat) (b : Nat → List Example → List Example × Nat)
    (ic : Task → Bool) :
    ∀ (fuel : Nat) (st : GroupState), st.group_discarded = st.discards.sum →
      (runLoopFuel m b ic fuel st).group_discarded
        = (runLoopFuel m b ic fuel st).discards.sum := by
  intro fuel
  induction fuel with
  | zero => intro st h; exact h
  | succ n ih =>
    intro st h
    simp only [runLoopFuel]
    split
    · apply ih
      show st.group_discarded + (b (st.request_idx + 1) (dataPool st.tasks)).2
          = (st.discards ++ [(b (st.request_idx + 1) (dataPool st.tasks)).2]).sum
      rw [List.sum_append, h]
      simp
    · exact h

/-- A group run's discard accumulator equals the sum of its logged
per-iteration discard counts. -/
lemma runGroup_discards_sum (m : Nat) (b : Nat → List Example → List Example × Nat)
    (ic : Task → Bool) (restart : Bool) (tasks0 : List Task) :
    (runGroup m b ic restart tasks0).group_discarded
      = (runGroup m b ic restart tasks0).discards.sum := by
  simp only [runGroup]
  split
  · rfl
  · unfold runLoop
    exact runLoopFuel_discards_sum m b ic _ _ rfl

/-- The run-level discard total is the sum of the processed groups'
accumulators. -/
lemma processGroups_total (m : Nat) (restart : Bool) :
    ∀ gs : List GroupInput,
      (processGroups m restart gs).2.1
        = ((processGroups m restart gs).1.map (fun g => g.group_discarded)).sum := by
  intro gs
  induction gs with
  | nil => rfl
  | cons g rest ih =>
    simp only [processGroups]
    split
    · simp
    · simp only [List.map_cons, List.sum_cons]
      rw [ih]

/-- Every processed group state is the run of one of the input groups. -/
lemma processGroups_mem (m : Nat) (restart : Bool) :
    ∀ (gs : List GroupInput) (g : GroupState), g ∈ (processGroups m restart gs).1 →
      ∃ gi ∈ gs, g = runGroup m gi.builder gi.is_complete restart gi.tasks := by
  intro gs
  induction gs with
  | nil => intro g hg; simp [processGroups] at hg
  | cons gi rest ih =>
    intro g hg
    simp only [processGroups] at hg
    split at hg
    · rcases List.mem_singleton.mp hg with rfl
      exact ⟨gi, List.mem_cons_self gi rest, rfl⟩
    · rcases List.mem_cons.mp hg with rfl | h
      · exact ⟨gi, List.mem_cons_self gi rest, rfl⟩
      · rcases ih g h with ⟨gj, hgj, heq⟩
        exact ⟨gj, List.mem_cons_of_mem gi hgj, heq⟩

/-! ## Claim theorems -/

/-- C5 (amended): the run-level discard total equals the sum, over all
processed builder groups, of that group's per-iteration discard counts
(each group's accumulator is the sum of its iteration counts, and the
run total is the sum of the group accumulators); it is reported once at
the end of the entire run — not at the end of each group's processing —
and only when the total is non-zero and no group aborted the run. -/
theorem c5_discard_total_amended (m : Nat) (dp od : String)
    (dp_exists dp_is_file restart : Bool) (groups : List GroupInput) :
    ((generate_data m dp od dp_exists dp_is_file restart groups).total_discarded
        = ((generate_data m dp od dp_exists dp_is_file restart groups).group_results.map
            (fun g => g.group_discarded)).sum)
    ∧ (∀ g ∈ (generate_data m dp od dp_exists dp_is_file restart groups).group_results,
        g.group_discarded = g.discards.sum)
    ∧ ((generate_data m dp od dp_exists dp_is_file restart groups).reports
        = match (generate_data m dp od dp_exists dp_is_file restart groups).error with
          | some _ => []
          | none =>
            if (generate_data m dp od dp_exists dp_is_file restart groups).total_discarded ≠ 0
            then [(generate_data m dp od dp_exists dp_is_file restart groups).total_discarded]
            else []) := by
  by_cases hcond : dp ≠ "" ∧ dp_exists = true
  · simp only [generate_data]
    rw [if_pos hcond]
    refine ⟨processGroups_total m restart groups, ?_, rfl⟩
    intro g hg
    rcases processGroups_mem m restart groups g hg with ⟨gi, _, rfl⟩
    exact runGroup_discards_sum m gi.builder gi.is_complete restart gi.tasks
  · simp only [generate_data]
    rw [if_neg hcond]
    exact ⟨rfl, fun g hg => absurd hg (by simp), rfl⟩

/-- C6 (amended): the run's outputs go under a subdirectory of the
configured output directory, but its name is the input data's base name
only for directory inputs; for a file input of the form
`parent ++ "/" ++ filename` (parent non-empty, not ending in a separator,
filename separator-free), the subdirectory is named after the stem of the
file's parent directory, not after the file's own base name. -/
theorem c6_output_subdir_amended (m : Nat) (od : String) (dpe restart : Bool)
    (groups : List GroupInput) (dc fc : List Char)
    (hd : dc ≠ []) (hlast : dc.getLast? ≠ some '/') (hf : '/' ∉ fc) :
    ((generate_data m (String.mk (dc ++ '/' :: fc)) od dpe true restart groups).output_dir
        = osPathJoin od (pathStem (String.mk dc)))
    ∧ (∀ p : String, (generate_data m p od dpe false restart groups).output_dir
        = osPathJoin od (pathStem p)) := by
  constructor
  · rw [generate_data_output_dir]
    unfold runName
    simp only [if_true]
    rw [show (String.mk (dc ++ '/' :: fc)).toList = dc ++ '/' :: fc from rfl]
    rw [osSplitHeadChars_parent hd hlast hf]
    rfl
  · intro p
    rw [generate_data_output_dir]
    rfl

/-- C6 counterexample: for the file input `data/mydata/qna.yaml`, the run
writes under `out/mydata` — named after the file's parent directory — not
under the input data's own base name (`qna` as a stem, `qna.yaml` as a
file name), so the claim fails for file inputs. -/
theorem c6_counterexample :
    ((generate_data 5 "data/mydata/qna.yaml" "out" true true false []).output_dir
        = "out/mydata")
    ∧ pathStem "data/mydata/qna.yaml" = "qna"
    ∧ pathName "data/mydata/qna.yaml" = "qna.yaml"
    ∧ ("mydata" : String) ≠ "qna"
    ∧ ("mydata" : String) ≠ "qna.yaml" := by
  decide

/-- C6 witness: the amended naming rule evaluated on the concrete file
path `dir/f.y` and the concrete directory path `somedir`. -/
theorem c6_output_subdir_amended_witness :
    ((generate_data 5 (String.mk (['d', 'i', 'r'] ++ '/' :: ['f', '.', 'y'])) "out" true true
        false []).output_dir = osPathJoin "out" (pathStem (String.mk ['d', 'i', 'r'])))
    ∧ ((generate_data 5 "somedir" "out" true false false []).output_dir
        = osPathJoin "out" (pathStem "somedir")) := by
  obtain ⟨h1, h2⟩ := c6_output_subdir_amended 5 "out" true false []
      ['d', 'i', 'r'] ['f', '.', 'y'] (by decide) (by decide) (by decide)
  exact ⟨h1, h2 "somedir"⟩

/-- C5 counterexample: with two builder groups discarding 3 and 5, the
code's report stream is a single `[8]` at the end of the whole run, while
the claim's per-group discipline would report `[3, 5]`, one total at the
end of each group's processing. -/
theorem c5_counterexample :
    (generate_data 0 "d" "out" true false false [cGa, cGb]).reports = [8]
    ∧ specPerGroupReports (generate_data 0 "d" "out" true false false [cGa, cGb]).group_results
        = [3, 5]
    ∧ ([8] : List Nat) ≠ [3, 5] := by
  decide

/-- C5 witness: the amended accounting evaluated on the specification's
own example — per-iteration discard counts 3, 0, 5 give a reported run
total of 8. -/
theorem c5_discard_total_amended_witness :
    ((generate_data 2 "d" "out" true false false [cG305]).total_discarded = 8)
    ∧ ((runGroup 2 cB305 cIcFalse false [cT1]).group_discarded
        = (runGroup 2 cB305 cIcFalse false [cT1]).discards.sum)
    ∧ ((generate_data 2 "d" "out" true false false [cG305]).reports = [8]) := by
  obtain ⟨h1, h2, h3⟩ := c5_discard_total_amended 2 "d" "out" true false false [cG305]
  refine ⟨?_, ?_, ?_⟩
  · rw [h1]; decide
  · exact h2 (runGroup 2 cB305 cIcFalse false [cT1]) (by decide)
  · rw [h3]; decide

/-- C1 (amended): for a builder group whose tasks never reach completion,
the iteration loop performs exactly `max_gen_requests + 1` builder
invocations and then terminates — the while condition
`request_idx <= max_gen_requests` is tested before the index is
incremented, so the budget admits one invocation more than
`max_gen_requests`. -/
theorem c1_budget_amended (m : Nat) (b : Nat → List Example → List Example × Nat)
    (ic : Task → Bool) (restart : Bool) (tasks0 : List Task)
    (hic : ∀ t, ic t = false) (hne : tasks0 ≠ [])
    (hseeds : (tasks0.flatMap (fun t => t.seed_data)).length ≠ 0) :
    (runGroup m b ic restart tasks0).invocations = m + 1
    ∧ (runGroup m b ic restart tasks0).error = none := by
  have hcomp0 : (tasks0.map (resumeTask restart)).filter (fun t => ic t) = [] :=
    List.filter_eq_nil_iff.mpr (fun a _ => by simp [hic])
  have hne1 : tasks0.map (resumeTask restart) ≠ [] := by simpa using hne
  simp only [runGroup]
  rw [if_neg hseeds, hcomp0, filter_not_contains_nil]
  constructor
  · unfold runLoop
    rw [show (initGroupState (tasks0.map (resumeTask restart)) []).request_idx = 0 from rfl,
        Nat.sub_zero]
    rw [runLoopFuel_count_never_complete m b ic hic (m + 1)
        (initGroupState (tasks0.map (resumeTask restart)) []) rfl hne1 (by simp [initGroupState])]
    simp [initGroupState]
  · unfold runLoop
    rw [runLoopFuel_error]
    rfl

/-- C1 counterexample: with `max_gen_requests = 1` and a one-task group
that never completes, the loop performs 2 builder invocations, not the 1
the claim requires. -/
theorem c1_counterexample :
    (runGroup 1 cBNil cIcFalse false [cT1]).invocations = 2 ∧ (2 : Nat) ≠ 1 := by
  decide

/-- C1 witness: the amended budget bound evaluated on a concrete
never-completing one-task group with `max_gen_requests = 1`. -/
theorem c1_budget_amended_witness :
    (runGroup 1 cBNil cIcFalse false [cT1]).invocations = 1 + 1
    ∧ (runGroup 1 cBNil cIcFalse false [cT1]).error = none :=
  c1_budget_amended 1 cBNil cIcFalse false [cT1] (fun _ => rfl) (by decide) (by decide)

/-- C2: in every iteration of a builder group's loop, the pool passed to
the builder invocation equals exactly the union, over the currently active
tasks, of their seed and generated-so-far examples: the pool record logged
by one iteration is the active task list paired with its combined pool, an
example is in that pool exactly when some active task holds it, and every
pool record produced over a whole group run pairs its active task list
with exactly that list's combined pool (completed tasks are not in the
active list, so they contribute nothing; every active task contributes). -/
theorem c2_pool_union (m : Nat) (b : Nat → List Example → List Example × Nat)
    (ic : Task → Bool) (restart : Bool) (tasks0 : List Task) (st : GroupState) :
    ((iterationStep b ic st).pools = st.pools ++ [(st.tasks, dataPool st.tasks)])
    ∧ (∀ e : Example, e ∈ dataPool st.tasks ↔ ∃ t ∈ st.tasks, e ∈ t.seed_data ++ t.machine_data)
    ∧ (∀ rec ∈ (runGroup m b ic restart tasks0).pools, rec.2 = dataPool rec.1) := by
  refine ⟨rfl, ?_, ?_⟩
  · intro e
    simp [dataPool]
  · intro rec hrec
    simp only [runGroup] at hrec
    split at hrec
    · simp at hrec
    · unfold runLoop at hrec
      exact runLoopFuel_pools_inv m b ic _ _ (by intro r hr; simp [initGroupState] at hr) rec hrec

/-- C2 witness: the pool-union property evaluated at a concrete two-task
state and a concrete one-task group run. -/
theorem c2_pool_union_witness :
    ((iterationStep cBNil cIcFalse cSt2).pools = cSt2.pools ++ [(cSt2.tasks, dataPool cSt2.tasks)])
    ∧ ((([cT1], dataPool [cT1]) : List Task × List Example).2 = dataPool ([cT1], dataPool [cT1]).1) :=
  ⟨(c2_pool_union 0 cBNil cIcFalse false [cT1] cSt2).1,
   (c2_pool_union 0 cBNil cIcFalse false [cT1] cSt2).2.2 ([cT1], dataPool [cT1]) (by decide)⟩

/-- C3 counterexample: with persisted output `[cE1]` reloaded into task
`t1`, a builder that produces `cE1` again makes the run append it a second
time: the task ends with `machine_data = [cE1, cE1]`, reintroducing an
example already present from the reload.  This refutes the claim that
appending newly produced examples after a reload never reintroduces a
reloaded example. -/
theorem c3_counterexample :
    (resumeTask false cT1r).machine_data = [cE1]
    ∧ ((runGroup 5 cBDup cIc2 false [cT1r]).completed.map (fun t => t.machine_data)) = [[cE1, cE1]]
    ∧ List.count cE1 [cE1, cE1] = 2 := by
  decide

/-- C3 (amended): rehydrating a task from persisted output is idempotent
within a run — the resume step assigns the persisted examples to the
task's generated sequence rather than appending them, so performing it a
second time changes nothing.  (The second half of the original claim does
not hold: appending newly produced examples performs no duplicate check,
see the counterexample.) -/
theorem c3_resume_idempotent :
    ∀ (restart_generation : Bool) (t : Task),
      resumeTask restart_generation (resumeTask restart_generation t)
        = resumeTask restart_generation t := by
  intro r t
  cases r
  · unfold resumeTask
    simp only [Bool.false_eq_true, if_false]
    cases hp : t.persisted <;> simp [hp]
  · unfold resumeTask
    simp

/-- C7: if, across all tasks in a builder group, there are zero seed
examples, the group run fails at once with the fatal
"Nothing to generate" error, before any builder invocation: no invocation
is counted, no pool is built, no save is issued. -/
theorem c7_zero_seeds (m : Nat) (b : Nat → List Example → List Example × Nat)
    (ic : Task → Bool) (restart : Bool) (tasks0 : List Task)
    (h : (tasks0.flatMap (fun t => t.seed_data)).length = 0) :
    (runGroup m b ic restart tasks0).error = some "Nothing to generate. Exiting."
    ∧ (runGroup m b ic restart tasks0).invocations = 0
    ∧ (runGroup m b ic restart tasks0).pools = []
    ∧ (runGroup m b ic restart tasks0).saves = [] := by
  unfold runGroup
  simp [h]

/-- C7 witness: the zero-seed check evaluated on a concrete seedless task. -/
theorem c7_zero_seeds_witness :
    (runGroup 3 cBNil cIcFalse false [cT0]).error = some "Nothing to generate. Exiting."
    ∧ (runGroup 3 cBNil cIcFalse false [cT0]).invocations = 0
    ∧ (runGroup 3 cBNil cIcFalse false [cT0]).pools = []
    ∧ (runGroup 3 cBNil cIcFalse false [cT0]).saves = [] :=
  c7_zero_seeds 3 cBNil cIcFalse false [cT0] (by decide)

/-- C8: given an input data path that does not exist (or an empty path),
the run terminates immediately with a fatal error naming the offending
path; no builder group is processed, no builder invocation is made, and
nothing is reported. -/
theorem c8_missing_data_path (m : Nat) (dp od : String) (dp_exists dp_is_file : Bool)
    (restart : Bool) (groups : List GroupInput)
    (h : dp_exists = false ∨ dp = "") :
    (generate_data m dp od dp_exists dp_is_file restart groups).error
        = some ("Error: data path (" ++ dp ++ ") does not exist.")
    ∧ (generate_data m dp od dp_exists dp_is_file restart groups).group_results = []
    ∧ totalInvocations (generate_data m dp od dp_exists dp_is_file restart groups) = 0
    ∧ (generate_data m dp od dp_exists dp_is_file restart groups).reports = [] := by
  have hcond : ¬ (dp ≠ "" ∧ dp_exists = true) := by
    rcases h with h | h <;> simp [h]
  unfold generate_data
  rw [if_neg hcond]
  exact ⟨rfl, rfl, rfl, rfl⟩

/-- C4: once a task's completion predicate holds on its extended state,
the iteration in flight moves it to the completed list — with its share
of that invocation's accepted examples already appended to its generated
sequence and already persisted (the updated record, share included, is
what enters the completed list, and its save event is logged) — and for
the remainder of the run its identity never returns to the active set,
stays in the completed set, and every pool built later draws on an active
task list that excludes it. -/
theorem c4_completed_stays (m : Nat) (b : Nat → List Example → List Example × Nat)
    (ic : Task → Bool) (st : GroupState) (t : Task)
    (ht : t ∈ st.tasks)
    (hdone : ic { t with machine_data :=
        t.machine_data ++ shareOf (b (st.request_idx + 1) (dataPool st.tasks)).1 t.name } = true) :
    ({ t with
         machine_data := t.machine_data ++ shareOf (b (st.request_idx + 1) (dataPool st.tasks)).1 t.name
         persisted := some (t.persisted.getD []
             ++ shareOf (b (st.request_idx + 1) (dataPool st.tasks)).1 t.name) }
        ∈ (iterationStep b ic st).completed)
    ∧ ((t.name, shareOf (b (st.request_idx + 1) (dataPool st.tasks)).1 t.name)
        ∈ (iterationStep b ic st).saves)
    ∧ (t.id ∈ completedIds (iterationStep b ic st))
    ∧ (t.id ∉ activeIds (runLoop m b ic (iterationStep b ic st)))
    ∧ (t.id ∈ completedIds (runLoop m b ic (iterationStep b ic st)))
    ∧ (∀ rec ∈ (runLoop m b ic (iterationStep b ic st)).pools,
        rec ∈ (iterationStep b ic st).pools ∨ t.id ∉ rec.1.map (fun u => u.id)) := by
  have hmem : processTask ic (b (st.request_idx + 1) (dataPool st.tasks)).1 t
      ∈ st.tasks.map (processTask ic (b (st.request_idx + 1) (dataPool st.tasks)).1) :=
    List.mem_map_of_mem _ ht
  have hflag : (processTask ic (b (st.request_idx + 1) (dataPool st.tasks)).1 t).2.1 = true := by
    rw [processTask_flag]; exact hdone
  have hfil : processTask ic (b (st.request_idx + 1) (dataPool st.tasks)).1 t
      ∈ (st.tasks.map (processTask ic (b (st.request_idx + 1) (dataPool st.tasks)).1)).filter
          (fun r => r.2.1) :=
    List.mem_filter.mpr ⟨hmem, hflag⟩
  have hc1 : ({ t with
         machine_data := t.machine_data ++ shareOf (b (st.request_idx + 1) (dataPool st.tasks)).1 t.name
         persisted := some (t.persisted.getD []
             ++ shareOf (b (st.request_idx + 1) (dataPool st.tasks)).1 t.name) }
        ∈ (iterationStep b ic st).completed) := by
    rw [iterationStep_completed]
    apply List.mem_append_right
    exact List.mem_map.mpr ⟨_, hfil, processTask_fst ic _ t⟩
  have hc3 : t.id ∈ completedIds (iterationStep b ic st) := by
    unfold completedIds
    exact List.mem_map.mpr ⟨_, hc1, rfl⟩
  have ha : t.id ∉ activeIds (iterationStep b ic st) := by
    intro hmem'
    rcases List.mem_map.mp hmem' with ⟨u, hu, hui⟩
    exact step_active_excludes b ic st u hu (hui ▸ hc3)
  have hstay := runLoopFuel_completed_stay m b ic
      (m + 1 - (iterationStep b ic st).request_idx) (iterationStep b ic st) t.id hc3 ha
  refine ⟨hc1, ?_, hc3, ?_, ?_, ?_⟩
  · rw [iterationStep_saves]
    apply List.mem_append_right
    exact List.mem_map.mpr ⟨_, hmem, processTask_save ic _ t⟩
  · unfold runLoop; exact hstay.2.1
  · unfold runLoop; exact hstay.1
  · unfold runLoop; exact hstay.2.2

/-- C4 witness: a concrete one-task state whose task completes during the
iteration in flight; its extended record enters the completed list and its
identity never returns to the active set. -/
theorem c4_completed_stays_witness :
    ({ cT1x with
         machine_data := cT1x.machine_data
             ++ shareOf (cBDup (cSt4.request_idx + 1) (dataPool cSt4.tasks)).1 cT1x.name
         persisted := some (cT1x.persisted.getD []
             ++ shareOf (cBDup (cSt4.request_idx + 1) (dataPool cSt4.tasks)).1 cT1x.name) }
        ∈ (iterationStep cBDup cIc2 cSt4).completed)
    ∧ cT1x.id ∈ completedIds (iterationStep cBDup cIc2 cSt4)
    ∧ cT1x.id ∉ activeIds (runLoop 5 cBDup cIc2 (iterationStep cBDup cIc2 cSt4)) := by
  obtain ⟨h1, h2, h3, h4, h5, h6⟩ :=
    c4_completed_stays 5 cBDup cIc2 cSt4 cT1x (by decide) (by decide)
  exact ⟨h1, h3, h4⟩

/-- C9: accepted examples tagged with a task identity matching no active
task are dropped by the partition step without any error: they enter no
active task's share, any example found in a task's generated sequence
after the iteration was already there before it, the error state is
unchanged, and the loop simply advances to the next invocation. -/
theorem c9_unroutable_dropped (b : Nat → List Example → List Example × Nat)
    (ic : Task → Bool) (st : GroupState) (e : Example)
    (_he : e ∈ (b (st.request_idx + 1) (dataPool st.tasks)).1)
    (hname : ∀ t ∈ st.tasks, e.task_name ≠ t.name) :
    (∀ t ∈ st.tasks, e ∉ shareOf (b (st.request_idx + 1) (dataPool st.tasks)).1 t.name)
    ∧ (∀ t' ∈ (iterationStep b ic st).tasks ++ (iterationStep b ic st).completed,
        e ∈ t'.machine_data → ∃ t0 ∈ st.tasks ++ st.completed, e ∈ t0.machine_data)
    ∧ ((iterationStep b ic st).error = st.error)
    ∧ ((iterationStep b ic st).invocations = st.invocations + 1) := by
  have hshare : ∀ t ∈ st.tasks,
      e ∉ shareOf (b (st.request_idx + 1) (dataPool st.tasks)).1 t.name :=
    fun t ht h => hname t ht (shareOf_name_eq h)
  refine ⟨hshare, ?_, rfl, rfl⟩
  intro t' ht' hm
  have fromResults : ∀ r ∈ st.tasks.map (processTask ic (b (st.request_idx + 1) (dataPool st.tasks)).1),
      e ∈ r.1.machine_data → ∃ t0 ∈ st.tasks ++ st.completed, e ∈ t0.machine_data := by
    intro r hr hmr
    rcases List.mem_map.mp hr with ⟨t0, ht0, rfl⟩
    rw [processTask_fst] at hmr
    have hm2 : e ∈ t0.machine_data
        ++ shareOf (b (st.request_idx + 1) (dataPool st.tasks)).1 t0.name := hmr
    rcases List.mem_append.mp hm2 with h | h
    · exact ⟨t0, List.mem_append_left _ ht0, h⟩
    · exact absurd h (hshare t0 ht0)
  rcases List.mem_append.mp ht' with h | h
  · rw [iterationStep_tasks] at h
    have h2 := (List.mem_filter.mp h).1
    rcases List.mem_map.mp h2 with ⟨r, hr, rfl⟩
    exact fromResults r hr hm
  · rw [iterationStep_completed] at h
    rcases List.mem_append.mp h with h1 | h1
    · exact ⟨t', List.mem_append_right _ h1, hm⟩
    · rcases List.mem_map.mp h1 with ⟨r, hr, rfl⟩
      exact fromResults r (List.mem_of_mem_filter hr) hm

/-- C9 witness: a stray example tagged `zz` against a concrete two-task
state enters no task's share and leaves the error state unchanged. -/
theorem c9_unroutable_dropped_witness :
    (cEz ∉ shareOf (cBStray (cSt2.request_idx + 1) (dataPool cSt2.tasks)).1 cT1.name)
    ∧ ((iterationStep cBStray cIcFalse cSt2).error = cSt2.error)
    ∧ ((iterationStep cBStray cIcFalse cSt2).invocations = cSt2.invocations + 1) := by
  obtain ⟨h1, h2, h3, h4⟩ :=
    c9_unroutable_dropped cBStray cIcFalse cSt2 cEz (by decide) (by decide)
  exact ⟨h1 cT1 (by decide), h3, h4⟩

/-- C10: in every iteration, the save log grows by exactly one save event
per task active at the start of that iteration, in order, each carrying
exactly that task's share of the accepted examples (possibly the empty
list); a name absent from the active list — in particular any task already
in the completed set — gains no new save event. -/
theorem c10_save_per_task (b : Nat → List Example → List Example × Nat)
    (ic : Task → Bool) (st : GroupState) :
    ((iterationStep b ic st).saves
        = st.saves ++ st.tasks.map (fun t =>
            (t.name, shareOf (b (st.request_idx + 1) (dataPool st.tasks)).1 t.name)))
    ∧ (∀ (nm : String) (d : List Example), nm ∉ st.tasks.map (fun t => t.name) →
        (nm, d) ∈ (iterationStep b ic st).saves → (nm, d) ∈ st.saves) := by
  have h1 : (iterationStep b ic st).saves
      = st.saves ++ st.tasks.map (fun t =>
          (t.name, shareOf (b (st.request_idx + 1) (dataPool st.tasks)).1 t.name)) := by
    rw [iterationStep_saves, List.map_map]
    rfl
  refine ⟨h1, ?_⟩
  intro nm d hnm hmem
  rw [h1] at hmem
  rcases List.mem_append.mp hmem with h | h
  · exact h
  · exfalso
    rcases List.mem_map.mp h with ⟨t, ht, heq⟩
    apply hnm
    have hn : t.name = nm := congrArg Prod.fst heq
    exact List.mem_map.mpr ⟨t, ht, hn⟩

/-- C10 witness: with two active tasks and a builder producing one example
for the first, the iteration logs exactly one save per task, the second
with an empty increment, and an inactive name gains no save event. -/
theorem c10_save_per_task_witness :
    ((iterationStep cBDup cIcFalse cSt2).saves = [("t1", [cE1]), ("t2", [])])
    ∧ (("zz", ([] : List Example)) ∈ (iterationStep cBDup cIcFalse cSt2).saves
        → ("zz", ([] : List Example)) ∈ cSt2.saves) := by
  constructor
  · rw [(c10_save_per_task cBDup cIcFalse cSt2).1]
    decide
  · exact (c10_save_per_task cBDup cIcFalse cSt2).2 "zz" [] (by decide)

/-- C8 witness: a run on a nonexistent path evaluated concretely. -/
theorem c8_missing_data_path_witness :
    (generate_data 3 "missing.yaml" "out" false false false [cGa]).error
        = some ("Error: data path (" ++ "missing.yaml" ++ ") does not exist.")
    ∧ (generate_data 3 "missing.yaml" "out" false false false [cGa]).group_results = []
    ∧ totalInvocations (generate_data 3 "missing.yaml" "out" false false false [cGa]) = 0
    ∧ (generate_data 3 "missing.yaml" "out" false false false [cGa]).reports = [] :=
  c8_missing_data_path 3 "missing.yaml" "out" false false false [cGa] (Or.inl rfl)

end FmsSdg
